import Mathlib

/-!
# A shallow embedding of the `cfg` package (seh-msft/cfg, `cfg.go`)

The Go package parses and emits cfg(2) files: records of tuples of
`name=value` attributes.  This file embeds the data model, the line
parser (`Load`), the derived-map builders (`BuildMap`, `FlatMap`) and the
serializer (`String`/`Emit`) as executable Lean definitions, and proves
properties of them.

Conventions of the embedding:
* Go strings are Lean `String`s; the parser walks `List Char`, matching
  the Go rune-by-rune `ReadRune` loop (inputs are sequences of Unicode
  scalar values).
* The per-line commit goroutine of `Load` is a FIFO channel consumed in
  order; it is embedded as an in-order list append with the same
  "discard attributes that have empty name and empty value" guard.
* The derived `Map` caches stored inside `Cfg`/`Record`/`Tuple` are not
  kept in the structures (they are recomputable); the unconditional
  `c.BuildMap()` call at the end of `Load`, which indexes
  `Attributes[0]` and `Tuples[0]` and therefore can panic in Go, is
  embedded as an `Option`-valued builder, and `Load` reports a distinct
  `crashes` outcome when that builder fails.
-/

deriving instance DecidableEq for Except

/-- the Go `unicode.IsSpace` predicate (the Unicode White_Space property). -/
def isGoSpace (c : Char) : Bool :=
  let n := c.toNat
  n == 0x20 || (0x9 ≤ n && n ≤ 0xD) || n == 0x85 || n == 0xA0 ||
  n == 0x1680 || (0x2000 ≤ n && n ≤ 0x200A) || n == 0x2028 || n == 0x2029 ||
  n == 0x202F || n == 0x205F || n == 0x3000

/-- The single-quote character. -/
def sqc : Char := '\''

/-- The double-quote character. -/
def dqc : Char := '"'

/-- `String.singleton sqc`, for readable test inputs. -/
def sqcS : String := String.singleton sqc

/-- `String.singleton dqc`, for readable test inputs. -/
def dqcS : String := String.singleton dqc

/-- `Attribute` of cfg.go: a name and optional value pair.  Both fields
are plain Go strings; an absent value is the empty string. -/
structure Attribute where
  name : String
  value : String
deriving DecidableEq, Repr

/-- `Tuple` of cfg.go (the derived `Map` cache is omitted). -/
structure Tuple where
  attrs : List Attribute
deriving DecidableEq, Repr

/-- `Record` of cfg.go (the derived `Map` cache is omitted). -/
structure Record where
  tuples : List Tuple
deriving DecidableEq, Repr

/-- `Cfg` of cfg.go (the derived `Map` cache is omitted). -/
structure Cfg where
  records : List Record
deriving DecidableEq, Repr

/-- The parser states of cfg.go (`name`, `value`, `equals`,
`squotebegin`, `dquotebegin`, `squoteend`, `dquoteend`). -/
inductive PState where
  | pname
  | pvalue
  | pequals
  | squotebegin
  | dquotebegin
  | squoteend
  | dquoteend
deriving DecidableEq, Repr

/-- The errors `Load` can return, and one marker (`crashes` lives in
`LoadOutcome`) for the index-out-of-range panic. -/
inductive LoadErr where
  | unclosedSingleAtEOF   -- unclosed single quote at EOF
  | unclosedDoubleAtEOF   -- unclosed double quote at EOF
  | unterminatedSingle    -- unterminated single quote
  | unterminatedDouble    -- unterminated double quote
  | orphan                -- no parent record for indented tuple
deriving DecidableEq, Repr

/-- The commit-goroutine insertion of cfg.go: attributes whose name and
value are both empty are discarded, others are appended in FIFO order. -/
def commitA (acc : List Attribute) (n v : String) : List Attribute :=
  if n = "" ∧ v = "" then acc else acc ++ [⟨n, v⟩]

/-- The per-line rune scanner of `Load` (the `scan:` loop of cfg.go).
Arguments mirror the Go locals: the remaining runes of the line, the
current state, the pending name `n`, the pending value `v`, the word
buffer, and the attributes committed so far.  Returns the final state
together with the committed attributes, or the quote-lookahead EOF
error.  Note the Go loop runs while `lr.Len() > 0`, so its internal
`err == io.EOF` branch is unreachable: a pending word at end of line in
state `value`/`equals`/`name` is dropped, exactly as the code does. -/
def scan : List Char → PState → String → String → String → List Attribute →
    Except LoadErr (PState × List Attribute)
  | [], st, _, _, _, acc => .ok (st, acc)
  | r :: rest, st, n, v, word, acc =>
    if isGoSpace r then
      match st with
      | .squotebegin => scan rest st n v (word.push r) acc
      | .dquotebegin => scan rest st n v (word.push r) acc
      | .squoteend => scan rest .pname "" "" "" (commitA acc n word)
      | .dquoteend => scan rest .pname "" "" "" (commitA acc n word)
      | .pvalue => scan rest .pname "" "" "" (commitA acc n word)
      | .pequals => scan rest .pname "" "" "" (commitA acc n v)
      | .pname => scan rest .pname "" "" "" (commitA acc word v)
    else if r = '=' then
      match st with
      | .squotebegin => scan rest st n v (word.push '=') acc
      | .dquotebegin => scan rest st n v (word.push '=') acc
      | .pname => scan rest .pequals word v "" acc
      | _ => scan rest .pequals n v word acc
    else if r = sqc then
      match rest with
      | [] => .error .unclosedSingleAtEOF
      | next :: rest2 =>
        if next = sqc then
          -- literal escape: both quotes consumed, one written
          scan rest2 st n v (word.push sqc) acc
        else if st = .dquotebegin then
          -- a single quote inside double quotes is data
          scan (next :: rest2) st n v (word.push sqc) acc
        else
          match st with
          | .squotebegin =>
            if n = "" then scan (next :: rest2) .squoteend word v "" acc
            else scan (next :: rest2) .squoteend "" "" "" (commitA acc n word)
          | .pname =>
            if word.length < 1 then scan (next :: rest2) .squotebegin n v word acc
            else scan (next :: rest2) .squotebegin "" "" "" (commitA acc word v)
          | _ => scan (next :: rest2) .squotebegin n v word acc
    else if r = dqc then
      match rest with
      | [] => .error .unclosedDoubleAtEOF
      | next :: rest2 =>
        if next = dqc then
          scan rest2 st n v (word.push dqc) acc
        else if st = .squotebegin then
          scan (next :: rest2) st n v (word.push dqc) acc
        else
          match st with
          | .dquotebegin =>
            if n = "" then scan (next :: rest2) .dquoteend word v "" acc
            else scan (next :: rest2) .dquoteend "" "" "" (commitA acc n word)
          | .pname =>
            if word.length < 1 then scan (next :: rest2) .dquotebegin n v word acc
            else scan (next :: rest2) .dquotebegin "" "" "" (commitA acc word v)
          | _ => scan (next :: rest2) .dquotebegin n v word acc
    else
      let st2 := if st = .pequals then .pvalue else st
      scan rest st2 n v (word.push r) acc

/-- Comment trimming of `Load`: the line is truncated at the first `#`
(on the raw line, before any quote-aware scanning). -/
def trimComment (cs : List Char) : List Char :=
  cs.takeWhile (fun c => c != '#')

/-- How `Load` classifies a comment-trimmed line. -/
inductive LineClass where
  | skip     -- "Empty line": continue
  | indent   -- "tuple in record": leading whitespace
  | fresh    -- "new record"
deriving DecidableEq, Repr

/-- `strings.IndexFunc` as in cfg.go: the position of the first
character satisfying `p`, or `-1`.  (Go returns a byte index; this
returns the rune index, and byte order equals rune order, so every
comparison `Load` makes on these values is preserved.) -/
def goIndex (p : Char → Bool) : List Char → Int
  | [] => -1
  | c :: cs =>
    if p c then 0
    else if goIndex p cs = -1 then -1 else goIndex p cs + 1

/-- The line classification of `Load` (the `wi`/`li` comparison),
including its exact integer comparisons: `wi < li` means continuation
(note `wi = -1` with `li ≥ 0` also lands here), `(wi < 0 ∨ wi > li) ∧
li ≥ 0` means a new record, anything else is skipped. -/
def classify (cs : List Char) : LineClass :=
  let wi := goIndex isGoSpace cs
  let li := goIndex (fun c => ! isGoSpace c) cs
  if wi < li then .indent
  else if (wi < 0 ∨ wi > li) ∧ 0 ≤ li then .fresh
  else .skip

/-- Scan a comment-trimmed line into its tuple: run `scan` from the
initial state and apply the post-scan unterminated-quote checks of
`Load` (which precede the orphan check). -/
def scanTuple (cs : List Char) : Except LoadErr (List Attribute) :=
  match scan cs .pname "" "" "" [] with
  | .error e => .error e
  | .ok (.squotebegin, _) => .error .unterminatedSingle
  | .ok (.dquotebegin, _) => .error .unterminatedDouble
  | .ok (_, attrs) => .ok attrs

/-- Append a tuple to the last record (`c.Records[last].Tuples = append ...`). -/
def appendLast (recs : List Record) (t : Tuple) : List Record :=
  match recs.getLast? with
  | none => recs
  | some last => recs.dropLast ++ [⟨last.tuples ++ [t]⟩]

/-- Process one raw line of `Load`: trim the comment, classify, scan,
then either skip, append to the last record (erroring when no record
exists yet), or open a new record. -/
def lineStep (recs : List Record) (raw : List Char) : Except LoadErr (List Record) :=
  let cs := trimComment raw
  match classify cs with
  | .skip => .ok recs
  | .indent =>
    match scanTuple cs with
    | .error e => .error e
    | .ok attrs =>
      if recs.isEmpty then .error .orphan
      else .ok (appendLast recs ⟨attrs⟩)
  | .fresh =>
    match scanTuple cs with
    | .error e => .error e
    | .ok attrs => .ok (recs ++ [⟨[⟨attrs⟩]⟩])

/-- The lines `Load` actually processes: `bufio.ReadString` up to a newline
delivers each segment up to and including a newline; at EOF the final
newline-less remainder is returned together with `io.EOF` and the loop
breaks, discarding it. -/
def splitFullLines : List Char → List (List Char)
  | [] => []
  | c :: cs =>
    if c = '\n' then ['\n'] :: splitFullLines cs
    else
      match splitFullLines cs with
      | [] => []
      | l :: ls => (c :: l) :: ls

/-- The line loop of `Load` over already-split lines. -/
def loadLines : List (List Char) → List Record → Except LoadErr (List Record)
  | [], recs => .ok recs
  | l :: ls, recs =>
    match lineStep recs l with
    | .error e => .error e
    | .ok recs2 => loadLines ls recs2

/-- Get from an association list modelling a Go `map` (first match). -/
def mapGet? {α : Type} (m : List (String × α)) (k : String) : Option α :=
  match m.find? (fun p => p.1 = k) with
  | some p => some p.2
  | none => none

/-- Set in an association list modelling a Go `map`: replace in place,
or append.  Go map iteration order is unspecified; this embedding
iterates in insertion order, and every consumer proved about below is
insensitive to that order. -/
def mapSet {α : Type} (m : List (String × α)) (k : String) (a : α) : List (String × α) :=
  match m with
  | [] => [(k, a)]
  | p :: rest => if p.1 = k then (k, a) :: rest else p :: mapSet rest k a

/-- `Tuple.BuildMap` of cfg.go: a non-empty value is appended to the
list held for the name; an omitted (empty) value resets the entry to the
empty list. -/
def tupleBuildMap (t : Tuple) : List (String × List String) :=
  t.attrs.foldl
    (fun m a =>
      if a.value ≠ "" then mapSet m a.name ((mapGet? m a.name).getD [] ++ [a.value])
      else mapSet m a.name [])
    []

/-- `Tuple.PrimaryKey` of cfg.go is `t.Attributes[0].Name`; the `none`
case is the index-out-of-range panic on an attribute-less tuple. -/
def tuplePrimaryKey? (t : Tuple) : Option String :=
  t.attrs.head?.map (·.name)

/-- `Record.PrimaryKey` of cfg.go is `r.Tuples[0].PrimaryKey()`. -/
def recordPrimaryKey? (r : Record) : Option String :=
  r.tuples.head?.bind tuplePrimaryKey?

/-- `Record.BuildMap` of cfg.go; `none` models the panic of
`t.PrimaryKey()` on an attribute-less tuple. -/
def recordBuildMap? (r : Record) : Option (List (String × List (String × List String))) :=
  r.tuples.foldl
    (fun acc t =>
      match acc, tuplePrimaryKey? t with
      | some m, some k => some (mapSet m k (tupleBuildMap t))
      | _, _ => none)
    (some [])

/-- `Cfg.BuildMap` of cfg.go; `none` models a panic in
`r.PrimaryKey()` or `r.BuildMap()`. -/
def cfgBuildMap? (recs : List Record) :
    Option (List (String × List (String × List (String × List String)))) :=
  recs.foldl
    (fun acc r =>
      match acc, recordPrimaryKey? r, recordBuildMap? r with
      | some m, some k, some rm => some (mapSet m k rm)
      | _, _, _ => none)
    (some [])

/-- What a call of the Go `Load` can do: return a `Cfg` and nil error,
return an error, or panic (index out of range inside the final
`c.BuildMap()`). -/
inductive LoadOutcome where
  | ok : Cfg → LoadOutcome
  | err : LoadErr → LoadOutcome
  | crashes : LoadOutcome
deriving DecidableEq, Repr

/-- `Load` of cfg.go: split the input into newline-terminated lines
(discarding a trailing newline-less remainder), run the line loop, then
run the final unconditional `c.BuildMap()`, which panics exactly when
some parsed tuple has no attributes. -/
def Load (s : String) : LoadOutcome :=
  match loadLines (splitFullLines s.data) [] with
  | .error e => .err e
  | .ok recs =>
    match cfgBuildMap? recs with
    | some _ => .ok ⟨recs⟩
    | none => .crashes

/-- One tuple-map pass of `Cfg.FlatMap` of cfg.go: names already
present are skipped, otherwise `out[n] = v[0]` is inserted — `none`
models the index-out-of-range panic when the list `v` is empty. -/
def flatIns (out : List (String × String)) :
    List (String × List String) → Option (List (String × String))
  | [] => some out
  | (n, v) :: rest =>
    if (mapGet? out n).isSome then flatIns out rest
    else
      match v with
      | [] => none
      | x :: _ => flatIns (mapSet out n x) rest

/-- The tuple loop of `Cfg.FlatMap`. -/
def flatTuples (out : List (String × String)) :
    List Tuple → Option (List (String × String))
  | [] => some out
  | t :: ts =>
    match flatIns out (tupleBuildMap t) with
    | some out2 => flatTuples out2 ts
    | none => none

/-- The record loop of `Cfg.FlatMap`. -/
def flatRecords (out : List (String × String)) :
    List Record → Option (List (String × String))
  | [] => some out
  | r :: rs =>
    match flatTuples out r.tuples with
    | some out2 => flatRecords out2 rs
    | none => none

/-- `Cfg.FlatMap` of cfg.go: the union of the maps of all tuples of all records,
first instance of a name wins; `none` models the panic of the
unguarded `out[n] = v[0]` on an empty value list. -/
def cfgFlatMap? (c : Cfg) : Option (List (String × String)) :=
  flatRecords [] c.records

/-- `strings.Fields`: the maximal runs of non-whitespace characters. -/
def fieldsAux : List Char → List Char → List (List Char)
  | [], acc => if acc.isEmpty then [] else [acc.reverse]
  | c :: rest, acc =>
    if isGoSpace c then
      if acc.isEmpty then fieldsAux rest [] else acc.reverse :: fieldsAux rest []
    else fieldsAux rest (c :: acc)

/-- `strings.Fields` on a string. -/
def goFields (s : String) : List (List Char) :=
  fieldsAux s.data []

/-- `strings.ReplaceAll(s, old, new)` for a one-character pattern, as
used by `Attribute.String` with `"` → `""`. -/
def replChar (c : Char) (rep : List Char) : List Char → List Char
  | [] => []
  | x :: xs => if x = c then rep ++ replChar c rep xs else x :: replChar c rep xs

/-- `Attribute.String` of cfg.go (src/cfg.go lines 579-599): a field is
wrapped in double quotes when `strings.Fields` of it has more than one
element, with inner double quotes doubled; the `=` is always written. -/
def attrRender (a : Attribute) : String :=
  (if (goFields a.name).length > 1 then
    dqcS ++ ⟨replChar dqc [dqc, dqc] a.name.data⟩ ++ dqcS
  else a.name)
  ++ "=" ++
  (if (goFields a.value).length > 1 then
    dqcS ++ ⟨replChar dqc [dqc, dqc] a.value.data⟩ ++ dqcS
  else a.value)

/-- `Tuple.String` of cfg.go: each attribute followed by a space. -/
def tupleString (t : Tuple) : String :=
  t.attrs.foldl (fun out a => out ++ attrRender a ++ " ") ""

/-- `Record.String` of cfg.go: the first tuple unindented, every later
tuple preceded by one tab, each followed by a newline.  (Go indexes
`r.Tuples[0]` and would panic on a tuple-less record; parsed records
always carry at least one tuple, and the `[]` case here is never
reached from them.) -/
def recordString (r : Record) : String :=
  match r.tuples with
  | [] => ""
  | t :: ts =>
    tupleString t ++ "\n" ++
    (ts.foldl (fun out t2 => out ++ "\t" ++ tupleString t2 ++ "\n") "")

/-- `Cfg.String` of cfg.go (also what `Emit` writes): the record
strings concatenated. -/
def cfgString (c : Cfg) : String :=
  c.records.foldl (fun out r => out ++ recordString r) ""

/-- The output quoting modes of the package (`Quotation`; the
`Quoting` package variable selects one, defaulting to `Double`). -/
inductive Quotation where
  | Double
  | Single
deriving DecidableEq, Repr

/-- Modelled from the spec: the quote-style-parametrised per-attribute
serializer.  The `Quoting = Single` output mode appears in the
go-doc and tests of the repository but its `Attribute.String` body is not
under src/ (src/cfg.go always uses `"`); per the spec, "a name or value
is quoted (wrapped in the selected quote character) iff it contains
internal whitespace ...; every literal occurrence of the chosen quote
character inside the text is doubled", and the `=` is always emitted. -/
def attrString (q : Quotation) (a : Attribute) : String :=
  let qc := match q with | .Double => dqc | .Single => sqc
  let qs := String.singleton qc
  (if (goFields a.name).length > 1 then
    qs ++ ⟨replChar qc [qc, qc] a.name.data⟩ ++ qs
  else a.name)
  ++ "=" ++
  (if (goFields a.value).length > 1 then
    qs ++ ⟨replChar qc [qc, qc] a.value.data⟩ ++ qs
  else a.value)

/-- Doubling of a chosen character, written from the spec sentence
"every literal occurrence of the chosen quote character inside the text
is doubled". -/
def doubleChar (c : Char) (cs : List Char) : List Char :=
  cs.foldr (fun x acc => if x = c then c :: c :: acc else x :: acc) []

/-- Modelled from the spec: one field of the per-attribute rendering.
"A name or value is quoted (wrapped in the selected quote character)
iff it contains internal whitespace (i.e., splitting on whitespace
yields more than one token); every literal occurrence of the chosen
quote character inside the text is doubled." -/
def specFieldRender (q : Quotation) (s : String) : String :=
  let qc := match q with | .Double => dqc | .Single => sqc
  if (goFields s).length > 1 then
    String.singleton qc ++ ⟨doubleChar qc s.data⟩ ++ String.singleton qc
  else s

/- ------------------------------------------------------------------ -/
/- Helper lemmas                                                      -/
/- ------------------------------------------------------------------ -/

theorem replChar_pair (c : Char) (cs : List Char) :
    replChar c [c, c] cs = doubleChar c cs := by
  induction cs with
  | nil => rfl
  | cons x xs ih =>
    by_cases hx : x = c <;> simp [replChar, doubleChar, hx] <;>
      simpa [doubleChar] using ih

theorem trimComment_no_hash (u : List Char) (h : ∀ c ∈ u, c ≠ '#') :
    trimComment u = u := by
  induction u with
  | nil => rfl
  | cons c cs ih =>
    have hc : c ≠ '#' := h c (List.mem_cons_self c cs)
    have ih2 : trimComment cs = cs := ih (fun d hd => h d (List.mem_cons_of_mem _ hd))
    simp only [trimComment, List.takeWhile_cons, bne_iff_ne, ne_eq] at ih2 ⊢
    simp [hc, ih2]

theorem trimComment_before_hash (u v : List Char) (h : ∀ c ∈ u, c ≠ '#') :
    trimComment (u ++ '#' :: v) = u := by
  induction u with
  | nil => simp [trimComment]
  | cons c cs ih =>
    have hc : c ≠ '#' := h c (List.mem_cons_self c cs)
    have ih2 := ih (fun d hd => h d (List.mem_cons_of_mem _ hd))
    simp only [trimComment, List.cons_append, List.takeWhile_cons, bne_iff_ne,
      ne_eq] at ih2 ⊢
    simp [hc, ih2]

theorem splitFullLines_no_newline (t : List Char) (h : ∀ c ∈ t, c ≠ '\n') :
    splitFullLines t = [] := by
  induction t with
  | nil => rfl
  | cons c cs ih =>
    have hc : c ≠ '\n' := h c (List.mem_cons_self c cs)
    have ih2 : splitFullLines cs = [] := ih (fun d hd => h d (List.mem_cons_of_mem _ hd))
    simp [splitFullLines, hc, ih2]

theorem splitFullLines_append (s t : List Char) (h : ∀ c ∈ t, c ≠ '\n') :
    splitFullLines (s ++ t) = splitFullLines s := by
  induction s with
  | nil => simpa using splitFullLines_no_newline t h
  | cons c cs ih =>
    by_cases hc : c = '\n'
    · subst hc
      simp [splitFullLines, ih]
    · simp only [List.cons_append, splitFullLines, if_neg hc, List.append_eq, ih]

theorem goIndex_nonneg_of_mem (p : Char → Bool) (l : List Char) (x : Char)
    (hx : x ∈ l) (hp : p x = true) : 0 ≤ goIndex p l := by
  induction l with
  | nil => cases hx
  | cons c cs ih =>
    by_cases hc : p c = true
    · simp [goIndex, hc]
    · have hx2 : x ∈ cs := by
        rcases List.mem_cons.mp hx with h1 | h1
        · subst h1; exact absurd hp hc
        · exact h1
      have hcs := ih hx2
      have hne : goIndex p cs ≠ -1 := by omega
      simp only [goIndex, if_neg hc, if_neg hne]
      omega

theorem classify_indent_of_leading_ws (c : Char) (cs : List Char)
    (hc : isGoSpace c = true) (hd : ∃ d ∈ cs, isGoSpace d = false) :
    classify (c :: cs) = .indent := by
  obtain ⟨d, hdm, hdf⟩ := hd
  have hwi : goIndex isGoSpace (c :: cs) = 0 := by simp [goIndex, hc]
  have hli0 : 0 ≤ goIndex (fun x => ! isGoSpace x) cs :=
    goIndex_nonneg_of_mem _ cs d hdm (by simp [hdf])
  have hne : goIndex (fun x => ! isGoSpace x) cs ≠ -1 := by omega
  have hli : goIndex (fun x => ! isGoSpace x) (c :: cs) =
      goIndex (fun x => ! isGoSpace x) cs + 1 := by
    simp only [goIndex, hc, Bool.not_true, if_neg hne]
    rfl
  simp only [classify, hwi, hli]
  rw [if_pos (by omega)]

theorem lineStep_skip (recs : List Record) (l : List Char)
    (h : classify (trimComment l) = .skip) : lineStep recs l = .ok recs := by
  simp [lineStep, h]

theorem loadLines_skipped_lines (blanks rest : List (List Char)) (recs : List Record)
    (h : ∀ b ∈ blanks, classify (trimComment b) = .skip) :
    loadLines (blanks ++ rest) recs = loadLines rest recs := by
  induction blanks with
  | nil => rfl
  | cons b bs ih =>
    have hb := lineStep_skip recs b (h b (List.mem_cons_self b bs))
    simp only [List.cons_append, loadLines, hb]
    exact ih (fun x hx => h x (List.mem_cons_of_mem _ hx))

theorem loadLines_append (xs ys : List (List Char)) (recs : List Record) :
    loadLines (xs ++ ys) recs =
      match loadLines xs recs with
      | .ok r2 => loadLines ys r2
      | .error e => .error e := by
  induction xs generalizing recs with
  | nil => simp [loadLines]
  | cons x xt ih =>
    simp only [List.cons_append, loadLines]
    cases lineStep recs x with
    | error e => rfl
    | ok r2 => simpa using ih r2

theorem flatIns_isSome (m : List (String × List String))
    (out : List (String × String)) (h : ∀ p ∈ m, p.2 ≠ []) :
    (flatIns out m).isSome := by
  induction m generalizing out with
  | nil => simp [flatIns]
  | cons p rest ih =>
    obtain ⟨n, v⟩ := p
    have hrest : ∀ q ∈ rest, q.2 ≠ ([] : List String) :=
      fun q hq => h q (List.mem_cons_of_mem _ hq)
    cases v with
    | nil => exact absurd rfl (h (n, []) (List.mem_cons_self _ _))
    | cons x xs =>
      by_cases hp : (mapGet? out n).isSome = true
      · simp [flatIns, hp, ih _ hrest]
      · simp [flatIns, hp, ih _ hrest]

theorem flatTuples_isSome (ts : List Tuple) (out : List (String × String))
    (h : ∀ t ∈ ts, ∀ p ∈ tupleBuildMap t, p.2 ≠ []) :
    (flatTuples out ts).isSome := by
  induction ts generalizing out with
  | nil => simp [flatTuples]
  | cons t rest ih =>
    have h1 := flatIns_isSome (tupleBuildMap t) out (h t (List.mem_cons_self _ _))
    obtain ⟨out2, hout2⟩ := Option.isSome_iff_exists.mp h1
    simp [flatTuples, hout2, ih out2 (fun u hu pr hpr => h u (List.mem_cons_of_mem _ hu) pr hpr)]

theorem flatRecords_isSome (rs : List Record) (out : List (String × String))
    (h : ∀ r ∈ rs, ∀ t ∈ r.tuples, ∀ p ∈ tupleBuildMap t, p.2 ≠ []) :
    (flatRecords out rs).isSome := by
  induction rs generalizing out with
  | nil => simp [flatRecords]
  | cons r rest ih =>
    have h1 := flatTuples_isSome r.tuples out (h r (List.mem_cons_self _ _))
    obtain ⟨out2, hout2⟩ := Option.isSome_iff_exists.mp h1
    simp [flatRecords, hout2, ih out2 (fun u hu t ht pr hpr => h u (List.mem_cons_of_mem _ hu) t ht pr hpr)]

/- ------------------------------------------------------------------ -/
/- Claim theorems                                                     -/
/- ------------------------------------------------------------------ -/

set_option maxHeartbeats 4000000

/-- C1: the round-trip law fails on the code.  The document parsed from
the line `n=< >a` (value quoted in single quotes, with a leading space)
serializes to `n= a \n` — the value has a single whitespace-delimited
token, so the serializer does not quote it — and re-parsing that text
succeeds but yields a structurally different document (two valueless
attributes instead of one attribute with value space-a), so
parse-emit-parse is not the identity. -/
theorem c1_roundtrip_fails_on_parsed_doc :
    Load ("n=" ++ sqcS ++ " a" ++ sqcS ++ "\n") =
      .ok ⟨[⟨[⟨[⟨"n", " a"⟩]⟩]⟩]⟩ ∧
    cfgString ⟨[⟨[⟨[⟨"n", " a"⟩]⟩]⟩]⟩ = "n= a \n" ∧
    Load "n= a \n" = .ok ⟨[⟨[⟨[⟨"n", ""⟩, ⟨"a", ""⟩]⟩]⟩]⟩ ∧
    (⟨[⟨[⟨[⟨"n", " a"⟩]⟩]⟩]⟩ : Cfg) ≠ ⟨[⟨[⟨[⟨"n", ""⟩, ⟨"a", ""⟩]⟩]⟩]⟩ := by
  refine ⟨by decide, by decide, by decide, by decide⟩

/-- C2: the structural invariant fails on the code.  The single line
`=` is non-empty and non-comment, is classified as a new record, and
its scan commits nothing (the lone discarded attribute has empty name
and value), so the record built from it has one tuple with zero
attributes; `Tuple.PrimaryKey` has no first attribute to read there,
and the unconditional `c.BuildMap()` at the end of `Load` panics. -/
theorem c2_empty_tuple_escapes_load :
    loadLines (splitFullLines ("=\n").data) [] = .ok [⟨[⟨[]⟩]⟩] ∧
    tuplePrimaryKey? ⟨[]⟩ = none ∧
    Load "=\n" = .crashes := by
  refine ⟨by decide, by decide, by decide⟩

/-- C3 counterexample: the claim says the parse of `foo` and the parse
of `foo=` are distinguishable in the resulting Document; in the code
both produce the identical Attribute (name `foo`, value the empty
string), so the two Documents are equal. -/
theorem c3_counterexample_parses_equal :
    Load "foo\n" = Load "foo=\n" := by decide

/-- C3 (amended): parsing `foo` and parsing `foo=` both yield the
Attribute with name `foo` and empty value — the absent value and the
present-but-empty value coincide in the data model — and that
Attribute serializes to `foo=`. -/
theorem c3_amended_absent_equals_empty :
    Load "foo\n" = .ok ⟨[⟨[⟨[⟨"foo", ""⟩]⟩]⟩]⟩ ∧
    Load "foo=\n" = .ok ⟨[⟨[⟨[⟨"foo", ""⟩]⟩]⟩]⟩ ∧
    attrRender ⟨"foo", ""⟩ = "foo=" := by
  refine ⟨by decide, by decide, by decide⟩

/-- C4: comment stripping happens on the raw line, before
classification and quote-aware tokenizing: processing any line formed
as hash-free prefix `u`, then `#`, then anything, is identical to
processing `u` alone — regardless of any quote state inside `u`. -/
theorem c4_comment_stripped_before_tokenizing
    (recs : List Record) (u v : List Char) (h : ∀ c ∈ u, c ≠ '#') :
    lineStep recs (u ++ '#' :: v) = lineStep recs u := by
  unfold lineStep
  rw [trimComment_before_hash u v h, trimComment_no_hash u h]

/-- C4 witness: a `#` inside an open single quote is stripped, so the
line `a=<sq>b#c<sq>` is processed exactly like `a=<sq>b` and dies with
an unterminated-single-quote error instead of reading the quoted hash
as data. -/
theorem c4_witness :
    lineStep [] (("a=" ++ sqcS ++ "b").data ++ '#' :: ("c" ++ sqcS ++ "\n").data) =
      lineStep [] ("a=" ++ sqcS ++ "b").data ∧
    lineStep [] ("a=" ++ sqcS ++ "b").data = .error .unterminatedSingle :=
  ⟨c4_comment_stripped_before_tokenizing [] _ _ (by decide), by decide⟩

/-- C5: a doubled quote inside a quoted field of the same kind becomes
one literal quote: `<sq>alice<sq><sq>s comment<sq>` parses to the
single field `alice<sq>s comment`, and `"a ""b"" c"` parses to the
single field `a "b" c`. -/
theorem c5_doubled_quote_is_literal :
    Load (sqcS ++ "alice" ++ sqcS ++ sqcS ++ "s comment" ++ sqcS ++ "\n") =
      .ok ⟨[⟨[⟨[⟨"alice" ++ sqcS ++ "s comment", ""⟩]⟩]⟩]⟩ ∧
    Load ("\"a \"\"b\"\" c\"\n") =
      .ok ⟨[⟨[⟨[⟨"a \"b\" c", ""⟩]⟩]⟩]⟩ := by
  refine ⟨by decide, by decide⟩

/-- C6: per-attribute serialization agrees with the spec sentence: each
of name and value is wrapped in the chosen quote character iff
splitting it on whitespace yields more than one token, with every
occurrence of that quote character doubled inside the wrapping, and the
`=` separator always emitted between the two rendered fields; at the
`Double` style this is exactly `Attribute.String` of src/cfg.go. -/
theorem c6_attr_serialization_spec :
    (∀ (q : Quotation) (a : Attribute),
      attrString q a = specFieldRender q a.name ++ "=" ++ specFieldRender q a.value) ∧
    (∀ a : Attribute, attrString .Double a = attrRender a) := by
  constructor
  · intro q a
    cases q <;>
      simp [attrString, specFieldRender, replChar_pair, dqcS, sqcS]
  · intro a
    rfl

/-- C7 counterexample: the claim says an input whose first non-blank,
non-comment line is indented returns the orphan-indented-tuple error;
but when that indented line also leaves a single quote open, the quote
check of the scanner runs first, and `Load` returns the
unterminated-single-quote error instead. -/
theorem c7_counterexample_indented_open_quote :
    Load ("\t" ++ sqcS ++ "a\n") = .err .unterminatedSingle ∧
    Load ("\t" ++ sqcS ++ "a\n") ≠ .err .orphan := by
  refine ⟨by decide, by decide⟩

/-- C7 (amended): both error cases hold once the interaction between
them is accounted for.  (a) If every earlier line is skipped as blank
or comment, and the first remaining line is indented (its
comment-trimmed text starts with whitespace and still has non-blank
content) and scans without a quote error, the parse fails with the
orphan-indented-tuple error and no document.  (b) If the lines before
`l` parse successfully and the comment-trimmed text of the non-skipped
line `l` ends while a single quote is still open, the parse fails with
the unterminated-single-quote error and no document. -/
theorem c7_amended_error_cases :
    (∀ (blanks : List (List Char)) (l : List Char) (rest : List (List Char))
        (c : Char) (cs : List Char) (attrs : List Attribute),
        (∀ b ∈ blanks, classify (trimComment b) = .skip) →
        trimComment l = c :: cs →
        isGoSpace c = true →
        (∃ d ∈ cs, isGoSpace d = false) →
        scanTuple (trimComment l) = .ok attrs →
        loadLines (blanks ++ l :: rest) [] = .error .orphan) ∧
    (∀ (pre : List (List Char)) (l : List Char) (rest : List (List Char))
        (recs : List Record) (attrs : List Attribute),
        loadLines pre [] = .ok recs →
        classify (trimComment l) ≠ .skip →
        scan (trimComment l) .pname "" "" "" [] = .ok (.squotebegin, attrs) →
        loadLines (pre ++ l :: rest) [] = .error .unterminatedSingle) := by
  constructor
  · intro blanks l rest c cs attrs hb htrim hc hd hscan
    rw [loadLines_skipped_lines blanks _ [] hb]
    have hcl : classify (trimComment l) = .indent := by
      rw [htrim]
      exact classify_indent_of_leading_ws c cs hc hd
    simp [loadLines, lineStep, hcl, hscan]
  · intro pre l rest recs attrs hpre hcl hscan
    rw [loadLines_append, hpre]
    have hst : scanTuple (trimComment l) = .error .unterminatedSingle := by
      simp [scanTuple, hscan]
    cases hc2 : classify (trimComment l) with
    | skip => exact absurd hc2 hcl
    | indent => simp [loadLines, lineStep, hc2, hst]
    | fresh => simp [loadLines, lineStep, hc2, hst]

/-- C7 witness: part (a) at a comment line and a blank line followed by
an indented clean line (orphan error), and part (b) at a good first
line followed by a line with an open single quote (unterminated
error). -/
theorem c7_amended_error_cases_witness :
    loadLines ([("# note\n").data, ("\n").data] ++ ("\tx=1\n").data :: []) [] =
      .error .orphan ∧
    loadLines ([("x\n").data] ++ ("a=" ++ sqcS ++ "b\n").data :: []) [] =
      .error .unterminatedSingle :=
  ⟨c7_amended_error_cases.1 [("# note\n").data, ("\n").data] ("\tx=1\n").data []
      '\t' ("x=1\n").data [⟨"x", "1"⟩]
      (by decide) (by decide) (by decide) (by decide) (by decide),
   c7_amended_error_cases.2 [("x\n").data] ("a=" ++ sqcS ++ "b\n").data []
      [⟨[⟨[⟨"x", ""⟩]⟩]⟩] []
      (by decide) (by decide) (by decide)⟩

/-- C8: the fixed regression line `a= <sq>b c<sq> d= last=bit` parses
to one record with one tuple of exactly four attributes in order:
`a` with no value, `b c` with no value, `d` with no value, and `last`
with value `bit`. -/
theorem c8_regression_line :
    Load ("a= " ++ sqcS ++ "b c" ++ sqcS ++ " d= last=bit\n") =
      .ok ⟨[⟨[⟨[⟨"a", ""⟩, ⟨"b c", ""⟩, ⟨"d", ""⟩, ⟨"last", "bit"⟩]⟩]⟩]⟩ := by
  decide

/-- C9: `Load` only processes newline-terminated lines: appending any
newline-free tail to an input does not change the parse, and an input
with no newline at all (in particular any non-empty one) yields the
empty document with no error. -/
theorem c9_trailing_remainder_discarded (s t : String)
    (h : ∀ c ∈ t.data, c ≠ '\n') :
    Load (s ++ t) = Load s ∧ Load t = .ok ⟨[]⟩ := by
  constructor
  · unfold Load
    rw [String.data_append s t, splitFullLines_append s.data t.data h]
  · unfold Load
    rw [splitFullLines_no_newline t.data h]
    rfl

/-- C9 witness: dropping the newline-free tail `b=c` leaves the parse
of `a` unchanged, and `b=c` alone parses to the empty document. -/
theorem c9_trailing_remainder_discarded_witness :
    Load ("a\n" ++ "b=c") = Load "a\n" ∧ Load "b=c" = .ok ⟨[]⟩ :=
  c9_trailing_remainder_discarded "a\n" "b=c" (by decide)

/-- C10 counterexample: the claim says `Cfg.FlatMap` terminates
normally on every document a successful `Load` produces; but `Load`
accepts the single valueless attribute `a`, whose `Tuple.BuildMap`
entry is the empty list, and the unguarded `v[0]` read of
`Cfg.FlatMap` then indexes out of range (modelled as `none`). -/
theorem c10_counterexample_flatmap_panics :
    Load "a\n" = .ok ⟨[⟨[⟨[⟨"a", ""⟩]⟩]⟩]⟩ ∧
    cfgFlatMap? ⟨[⟨[⟨[⟨"a", ""⟩]⟩]⟩]⟩ = none := by
  refine ⟨by decide, by decide⟩

/-- C10 (amended): `Cfg.FlatMap` terminates normally when every value
list produced by `Tuple.BuildMap` over the document is non-empty (no
valueless attributes); the `v[0]` access it performs is then always in
bounds.  A valueless attribute read for a not-yet-seen name makes that
access panic, as the counterexample shows. -/
theorem c10_amended_flatmap_safe (c : Cfg)
    (h : ∀ r ∈ c.records, ∀ t ∈ r.tuples, ∀ p ∈ tupleBuildMap t, p.2 ≠ []) :
    (cfgFlatMap? c).isSome := by
  unfold cfgFlatMap?
  exact flatRecords_isSome c.records [] h

/-- C10 witness: the document parsed from `a=b` satisfies the
non-empty-lists condition and its flat map is defined. -/
theorem c10_amended_flatmap_safe_witness :
    (∀ r ∈ (⟨[⟨[⟨[⟨"a", "b"⟩]⟩]⟩]⟩ : Cfg).records, ∀ t ∈ r.tuples,
      ∀ p ∈ tupleBuildMap t, p.2 ≠ []) ∧
    (cfgFlatMap? ⟨[⟨[⟨[⟨"a", "b"⟩]⟩]⟩]⟩).isSome :=
  ⟨by decide, c10_amended_flatmap_safe ⟨[⟨[⟨[⟨"a", "b"⟩]⟩]⟩]⟩ (by decide)⟩
